import Mathlib

set_option maxRecDepth 1000000

/- Shallow embedding of the KindleClippings repository (src/clippings_parser.py
   and src/pdf_helpers.py).  Python strings are modelled as Lean String values,
   Python lists as Lean List, the destination directory as an association list
   from file name to file content, and Python exceptions as an explicit error
   type threaded through Except.  Modelling caveats are noted per definition. -/

/-- Python exception kinds reachable in the embedded fragment. -/
inductive PyError where
  | ioError
  | indexError
  | valueError
  | zeroDivisionError
  | typeError
  deriving DecidableEq, Repr

/-- Boolean test: the first list is a prefix of the second. -/
def listPre : List Char → List Char → Bool
  | [], _ => true
  | _ :: _, [] => false
  | a :: as, b :: bs => a == b && listPre as bs

/-- Contiguous-substring test: does needle occur anywhere in hay
(the semantics of the Python operator `in` on two strings)? -/
def listInfixB (needle hay : List Char) : Bool :=
  (List.range (hay.length + 1)).any fun i => listPre needle (hay.drop i)

/-- Python `needle in hay` for strings. -/
def strContains (hay needle : String) : Bool :=
  listInfixB needle.data hay.data

/-- Directory listing lookup: content of the file with the given name, if any
(models reading a file inside the destination directory). -/
def fsGet : List (String × String) → String → Option String
  | [], _ => none
  | (k, w) :: rest, n => if k = n then some w else fsGet rest n

/-- Write a file: replace the content of an existing name in place, or append
a new entry at the end of the listing. -/
def fsSet : List (String × String) → String → String → List (String × String)
  | [], n, v => [(n, v)]
  | (k, w) :: rest, n, v =>
    if k = n then (k, v) :: rest else (k, w) :: fsSet rest n v

/-- os.path.join for the two-argument relative case used by the code. -/
def pyJoin (d n : String) : String :=
  if d = "" then n
  else if d.data.getLast? = some '/' then d ++ n
  else d ++ "/" ++ n

/-- Python slicing s[:m] on a char list, including the negative-bound case. -/
def pySlice (l : List Char) (m : Int) : List Char :=
  if 0 ≤ m then l.take m.toNat else l.take (l.length - (-m).toNat)

/-- Python str.split(sep) with a non-empty separator, fuel-structured; the
fuel is always instantiated with (length + 1), which suffices because every
step consumes at least one character. -/
def pySplitAux (sep : List Char) : Nat → List Char → List Char → List (List Char)
  | 0, l, acc => [acc.reverse ++ l]
  | _ + 1, [], acc => [acc.reverse]
  | fuel + 1, c :: rest, acc =>
    if listPre sep (c :: rest) then
      acc.reverse :: pySplitAux sep fuel ((c :: rest).drop sep.length) []
    else
      pySplitAux sep fuel rest (c :: acc)

/-- Python str.split(sep) for strings (sep non-empty at every call site). -/
def pySplit (s sep : String) : List String :=
  (pySplitAux sep.data (s.data.length + 1) s.data []).map String.mk

/-- One left-to-right match attempt of the regex " *: *" at the head of the
list: greedy spaces, a colon, greedy spaces; returns the remainder. -/
def colonMatch (l : List Char) : Option (List Char) :=
  match l.dropWhile (· = ' ') with
  | ':' :: r => some (r.dropWhile (· = ' '))
  | _ => none

/-- re.sub(" *: *", " - ", s): replace every match, scanning left to right. -/
def subColonF : Nat → List Char → List Char
  | 0, l => l
  | _ + 1, [] => []
  | fuel + 1, c :: rest =>
    match colonMatch (c :: rest) with
    | some rem => ' ' :: '-' :: ' ' :: subColonF fuel rem
    | none => c :: subColonF fuel rest

/-- s.replace("?", "").replace("&", "and") fused into one pass (the two
replacements do not interact: "and" contains neither source character). -/
def replQAmp : List Char → List Char
  | [] => []
  | c :: rest =>
    if c = '?' then replQAmp rest
    else if c = '&' then 'a' :: 'n' :: 'd' :: replQAmp rest
    else c :: replQAmp rest

/-- Scan for the closing paren of the non-greedy group "(.+?)": the inner part
is everything up to the first ')' at distance at least one; '.' does not match
a newline, so a newline aborts the match. -/
def closeAux : List Char → Option (List Char × List Char)
  | [] => none
  | c :: r =>
    if c = ')' then some ([], r)
    else if c = '\n' then none
    else (closeAux r).map fun p => (c :: p.1, p.2)

/-- The first inner character of "(.+?)" is consumed unconditionally (the
group needs at least one character), then `closeAux` finds the closer. -/
def closeSplit : List Char → Option (List Char × List Char)
  | [] => none
  | c :: r =>
    if c = '\n' then none
    else (closeAux r).map fun p => (c :: p.1, p.2)

/-- re.sub(r"\((.+?)\)", r"- \1", s): every non-overlapping match of a
parenthesized group is rewritten to "- inner", scanning left to right. -/
def parenSubF : Nat → List Char → List Char
  | 0, l => l
  | _ + 1, [] => []
  | fuel + 1, c :: rest =>
    if c = '(' then
      match closeSplit rest with
      | some (inner, rem) => '-' :: ' ' :: (inner ++ parenSubF fuel rem)
      | none => c :: parenSubF fuel rest
    else c :: parenSubF fuel rest

/-- Character class [a-zA-Z\d\s\w;,_-], with the Unicode classes \w \s \d
modelled on the ASCII range (every title reasoned about here is ASCII). -/
def isAllowedChar (c : Char) : Bool :=
  c.isAlpha || c.isDigit || c.isWhitespace || c = ';' || c = ',' || c = '_' || c = '-'

/-- Regex word character \w, ASCII range. -/
def isWordChar (c : Char) : Bool :=
  c.isAlpha || c.isDigit || c = '_'

/-- remove_chars from src/clippings_parser.py: the five-step sanitizer chain
followed by the truncation to 245 - len(output_directory) characters. -/
def remove_chars (s : String) (output_directory : String) : String :=
  let l1 := subColonF (s.data.length + 1) s.data
  let l2 := replQAmp l1
  let l3 := parenSubF (l2.length + 1) l2
  let l4 := l3.filter isAllowedChar
  let l5 := ((l4.dropWhile fun c => ¬ isWordChar c).reverse.dropWhile fun c => ¬ isWordChar c).reverse
  String.mk (pySlice l5 (245 - (output_directory.data.length : Int)))

/-- A Python datetime.datetime value (date plus time of day, no tzinfo). -/
structure PyDateTime where
  year : Nat
  month : Nat
  day : Nat
  hour : Nat
  minute : Nat
  second : Nat
  deriving DecidableEq, Repr

/-- Gregorian leap-year rule used by datetime. -/
def isLeapYear (y : Nat) : Bool :=
  y % 4 = 0 && (y % 100 ≠ 0 || y % 400 = 0)

/-- Days in a month of a given year. -/
def daysInMonth (m y : Nat) : Nat :=
  if m = 2 then (if isLeapYear y then 29 else 28)
  else if m = 4 ∨ m = 6 ∨ m = 9 ∨ m = 11 then 30
  else 31

/-- Days before the first day of month m of year y, within year y. -/
def daysBeforeMonth (m y : Nat) : Nat :=
  ((List.range m).filter (fun k => 1 ≤ k)).foldl (fun acc k => acc + daysInMonth k y) 0

/-- Days in the proleptic Gregorian calendar before January 1 of year y. -/
def daysBeforeYear (y : Nat) : Nat :=
  (y - 1) * 365 + (y - 1) / 4 - (y - 1) / 100 + (y - 1) / 400

/-- A datetime as a second count on the proleptic Gregorian timeline; the
difference of two such counts is exactly the Python timedelta in seconds. -/
def pyDateTimeToSec (t : PyDateTime) : Int :=
  (((daysBeforeYear t.year + daysBeforeMonth t.month t.year + (t.day - 1)) * 86400
    + t.hour * 3600 + t.minute * 60 + t.second : Nat) : Int)

/-- Parse an all-digit token of bounded length into a number. -/
def parseDigits (s : String) (maxLen : Nat) : Option Nat :=
  if s.data ≠ [] ∧ s.data.length ≤ maxLen ∧ s.data.all Char.isDigit then
    some (s.data.foldl (fun n c => n * 10 + (c.toNat - 48)) 0)
  else none

/-- Full English month names recognized by the strptime directive %B
(CPython also accepts other letter cases; every input reasoned about here
uses the canonical capitalization). -/
def monthOfName (s : String) : Option Nat :=
  [("January", 1), ("February", 2), ("March", 3), ("April", 4), ("May", 5),
   ("June", 6), ("July", 7), ("August", 8), ("September", 9), ("October", 10),
   ("November", 11), ("December", 12)].lookup s

/-- datetime.datetime.strptime(s, "%d %B %Y %H:%M:%S"): %d %H %M %S take one
or two digits, %Y exactly four, %B a month name, the format spaces match runs
of whitespace, the whole input must be consumed, and the resulting field
values must form a valid datetime. -/
def pyStrptime (s : String) : Except PyError PyDateTime :=
  if s.data.head? = some ' ' ∨ s.data.getLast? = some ' ' then .error .valueError
  else
    match (pySplit s " ").filter (· ≠ "") with
    | [dTok, moTok, yTok, hmsTok] =>
      match parseDigits dTok 2, monthOfName moTok, parseDigits yTok 4 with
      | some d, some mo, some y =>
        if yTok.data.length ≠ 4 then .error .valueError
        else
          match pySplit hmsTok ":" with
          | [hTok, miTok, seTok] =>
            match parseDigits hTok 2, parseDigits miTok 2, parseDigits seTok 2 with
            | some h, some mi, some se =>
              if 1 ≤ y ∧ 1 ≤ d ∧ d ≤ daysInMonth mo y ∧ h ≤ 23 ∧ mi ≤ 59 ∧ se ≤ 59 then
                .ok ⟨y, mo, d, h, mi, se⟩
              else .error .valueError
            | _, _, _ => .error .valueError
          | _ => .error .valueError
      | _, _, _ => .error .valueError
    | _ => .error .valueError

/-- extract_date_and_time from src/pdf_helpers.py: index [1] of the split on
"Added on " (IndexError if absent), then a two-way tuple unpack of the split
on ", " (ValueError unless the split has exactly two parts), then strptime. -/
def extract_date_and_time (s : String) : Except PyError PyDateTime :=
  match (pySplit s "Added on ").get? 1 with
  | none => .error .indexError
  | some dateAndTimeStr =>
    match pySplit dateAndTimeStr ", " with
    | [_, dateTimeStr] => pyStrptime dateTimeStr
    | _ => .error .valueError

/-- Character-level Levenshtein distance, by the standard one-row dynamic
program (Levenshtein.distance in the Python source). -/
def levRowAux (x : Char) : List Char → List Nat → Nat → List Nat
  | y :: ys, p0 :: p1 :: ps, left =>
    let d := min (p1 + 1) (min (left + 1) (p0 + (if x = y then 0 else 1)))
    d :: levRowAux x ys (p1 :: ps) d
  | _, _, _ => []

/-- Levenshtein distance between two char lists. -/
def levDistance (a b : List Char) : Nat :=
  (a.foldl
    (fun row x =>
      match row with
      | p0 :: _ => (p0 + 1) :: levRowAux x b row (p0 + 1)
      | [] => [])
    (List.range (b.length + 1))).getLastD 0

/-- A value an object-dtype pandas cell holds in this pipeline: an actual
Python string, the float np.nan that Series.shift fills in past the end of
the column, or Python None — the only sentinel the code's guard tests. -/
inductive PyStrCell where
  | str (s : String)
  | nan
  | pynone
  deriving DecidableEq, Repr

/-- calculate_similarity from src/pdf_helpers.py.  The `is None` guard
returns 0 only for Python None; any non-string argument that is not None —
in particular the float nan that the shifted column holds in its last row —
reaches Levenshtein.distance and raises TypeError.  On two strings, Python
computes the score in floating point; the embedding uses exact rationals,
which agrees at every comparison performed in this development.  When both
strings are empty the division is 0/0, a ZeroDivisionError. -/
def calculate_similarity (string1 string2 : PyStrCell) : Except PyError Rat :=
  if string1 = .pynone ∨ string2 = .pynone then .ok 0
  else
    match string1, string2 with
    | .str a, .str b =>
      if max a.data.length b.data.length = 0 then .error .zeroDivisionError
      else .ok (1 - (levDistance a.data b.data : Rat) / (max a.data.length b.data.length : Nat))
    | _, _ => .error .typeError

/-- One row of the highlights dataframe: columns highlight, meta, date. -/
structure Row where
  highlight : String
  meta : String
  date : PyDateTime
  deriving DecidableEq, Repr

/-- The correlaton column: df.apply evaluates calculate_similarity row by
row on df["highlight"] against df["highlight"].shift(-1); the shifted
object column holds the float nan in its last cell (pandas fills nan, not
None, for non-extension dtypes), so the last row's call receives nan. -/
def simCol : List Row → Except PyError (List Rat)
  | [] => .ok []
  | [r] => do
    let s ← calculate_similarity (.str r.highlight) .nan
    .ok [s]
  | r :: nx :: rest => do
    let s ← calculate_similarity (.str r.highlight) (.str nx.highlight)
    let ss ← simCol (nx :: rest)
    .ok (s :: ss)

/-- The time_diff column: df["date"].shift(-1) - df["date"] in whole seconds;
the last row holds the missing value NaT, which compares False below. -/
def diffCol : List Row → List (Option Int)
  | [] => []
  | [_] => [none]
  | r :: nx :: rest =>
    some (pyDateTimeToSec nx.date - pyDateTimeToSec r.date) :: diffCol (nx :: rest)

/-- filter_repeated_highlights from src/pdf_helpers.py: build the
next_highlight, correlaton, time_diff columns, mark a row for removal iff
correlaton > 0.3 and time_diff < one minute, and keep the unmarked rows in
order (Python compares floats to the literal 0.3; modelled as the rational
3/10, which agrees at every comparison performed in this development). -/
def filter_repeated_highlights (rows : List Row) : Except PyError (List Row) := do
  let sims ← simCol rows
  let diffs := diffCol rows
  let toRemove := List.zipWith
    (fun s d =>
      decide ((3 : Rat) / 10 < s) &&
        (match d with
         | some dd => decide (dd < 60)
         | none => false))
    sims diffs
  .ok (((rows.zip toRemove).filter fun p => ¬ p.2).map fun p => p.1)

/-- re.search(r"(Your.*\| Added on)", s): "Your" occurs at some position, and
"| Added on" occurs at or after the position four further on, with no newline
in between ('.' does not match a newline). -/
def searchSep : List Char → Bool
  | [] => false
  | c :: rest =>
    if listPre "| Added on".data (c :: rest) then true
    else if c = '\n' then false
    else searchSep rest

/-- Recognizer for a metadata line, per the regex above. -/
def isMetaLine (s : String) : Bool :=
  (List.range (s.data.length + 1)).any fun i =>
    listPre "Your".data (s.data.drop i) && searchSep (s.data.drop (i + 4))

/-- Classify the filtered lines into text and metadata columns, extracting a
date from each metadata line (an extraction failure propagates: the Python
code calls extract_date_and_time with no handler). -/
def classifyLines : List String → Except PyError (List String × List String × List PyDateTime)
  | [] => .ok ([], [], [])
  | line :: rest =>
    if isMetaLine line then do
      let d ← extract_date_and_time line
      let (texts, metas, dates) ← classifyLines rest
      .ok (texts, line :: metas, d :: dates)
    else do
      let (texts, metas, dates) ← classifyLines rest
      .ok (line :: texts, metas, dates)

/-- Zip the three dataframe columns into rows; pandas raises ValueError when
the column lists have different lengths. -/
def zipColumns : List String → List String → List PyDateTime → Except PyError (List Row)
  | [], [], [] => .ok []
  | t :: ts, m :: ms, d :: ds => do
    let rest ← zipColumns ts ms ds
    .ok (⟨t, m, d⟩ :: rest)
  | _, _, _ => .error .valueError

/-- create_df_from_highlights_list from src/pdf_helpers.py: drop "..." and
empty lines, classify the rest by the metadata recognizer, build the
dataframe, and pass it through filter_repeated_highlights. -/
def create_df_from_highlights_list (lines : List String) : Except PyError (List Row) := do
  let filtered := lines.filter fun s => ¬ (s = "..." ∨ s = "")
  let (texts, metas, dates) ← classifyLines filtered
  let rows ← zipColumns texts metas dates
  filter_repeated_highlights rows

/-- The destination directory: whether it exists, and its files as an
association list from file name to content. -/
structure PyFS where
  dirExists : Bool
  files : List (String × String)
  deriving DecidableEq, Repr

/-- The per-chunk front half of the loop body of parse_clippings
(src/clippings_parser.py): split the chunk on newlines dropping the first
line, skip the chunk when fewer than 3 lines remain, evaluate lines[3]
(IndexError when absent), skip when it is empty, strip a leading BOM from
the title line (title[0] raises IndexError on an empty title), and return
the sanitized output file name, the metadata line lines[1], and the body. -/
def processChunk (dir : String) (chunk : String) : Except PyError (Option (String × String × String)) :=
  let lines := (pySplit chunk "\n").drop 1
  if lines.length < 3 then .ok none
  else
    match lines.get? 3 with
    | none => .error .indexError
    | some body =>
      if body = "" then .ok none
      else
        match lines.get? 0, lines.get? 1 with
        | some t0, some metaLine =>
          match t0.data with
          | [] => .error .indexError
          | c :: rest =>
            let title := if c = '﻿' then String.mk rest else t0
            .ok (some (remove_chars title dir ++ ".txt", metaLine, body))
        | _, _ => .error .indexError

/-- The text the loop body appends for one record: nothing when the body is
already contained in the current text, else the body line, optionally the
metadata line, and the separator. -/
def writeText (im : Bool) (metaLine body currentText : String) : String :=
  if strContains currentText body then ""
  else body ++ "\n" ++ (if im then metaLine ++ "\n" else "") ++ "\n...\n\n"

/-- The per-chunk back half of the loop body: choose write mode "w" (new
name: not among the recorded output paths nor the directory listing) or "a"
(existing: read the current content first), then write the novel text.  The
recorded set holds full paths while the membership test compares bare file
names, exactly as in the source. -/
def applyRecord (dir : String) (im : Bool) (st : List String × List (String × String))
    (info : String × String × String) : Except PyError (List String × List (String × String)) :=
  let out := st.1
  let files := st.2
  let name := info.1
  let metaLine := info.2.1
  let body := info.2.2
  let path := pyJoin dir name
  if name ∈ out ∨ (fsGet files name).isSome then
    match fsGet files name with
    | none => .error .ioError
    | some currentText =>
      .ok (out, fsSet files name (currentText ++ writeText im metaLine body currentText))
  else
    let outNext := if path ∈ out then out else out ++ [path]
    .ok (outNext, fsSet files name (writeText im metaLine body ""))

/-- One loop iteration of parse_clippings. -/
def stepChunk (dir : String) (im : Bool) (st : List String × List (String × String))
    (chunk : String) : Except PyError (List String × List (String × String)) :=
  match processChunk dir chunk with
  | .error e => .error e
  | .ok none => .ok st
  | .ok (some info) => applyRecord dir im st info

/-- The chunk loop; an uncaught exception aborts it, leaving the files as
they were after the last completed iteration. -/
def runChunks (dir : String) (im : Bool) :
    List String → List String × List (String × String) →
    Except PyError Unit × (List String × List (String × String))
  | [], st => (.ok (), st)
  | c :: cs, st =>
    match stepChunk dir im st c with
    | .error e => (.error e, st)
    | .ok stNext => runChunks dir im cs stNext

/-- parse_clippings from src/clippings_parser.py.  The source file is given
as its decoded content, or none when os.path.isfile fails; that check comes
before the destination directory is created.  Returns the set of output
paths recorded during the run together with the final directory state. -/
def parse_clippings (sourceFile : Option String) (outputDirectory : String) (im : Bool)
    (fs : PyFS) : Except PyError (List String) × PyFS :=
  match sourceFile with
  | none => (.error .ioError, fs)
  | some content =>
    match runChunks outputDirectory im (pySplit content "==========") ([], fs.files) with
    | (.ok _, (out, files)) => (.ok out, ⟨true, files⟩)
    | (.error e, (_, files)) => (.error e, ⟨true, files⟩)

/-- The similarity score on two actual strings, written as a plain formula:
1 - distance / max length. -/
def simSpec (a b : String) : Rat :=
  1 - (levDistance a.data b.data : Rat) / (max a.data.length b.data.length : Nat)

def c2src : String :=
  "==========\nBook A\nYour Highlight on page 1 | Added on Friday, 5 March 2021 14:32:10\n\nThe quick brown fox\n==========\nBook A\nYour Highlight on page 1 | Added on Friday, 5 March 2021 14:32:15\n\nThe quick brown fox.\n==========\nBook A\nYour Highlight on page 2 | Added on Friday, 5 March 2021 15:00:00\n\nCompletely different text here\n==========\nBook B\nYour Highlight on page 3 | Added on Friday, 5 March 2021 16:00:00\n\nSome B text\n==========\n"


def c2bookA : String := "The quick brown fox\nYour Highlight on page 1 | Added on Friday, 5 March 2021 14:32:10\n\n...\n\nThe quick brown fox.\nYour Highlight on page 1 | Added on Friday, 5 March 2021 14:32:15\n\n...\n\nCompletely different text here\nYour Highlight on page 2 | Added on Friday, 5 March 2021 15:00:00\n\n...\n\n"

def c2bookB : String :=
  "Some B text\nYour Highlight on page 3 | Added on Friday, 5 March 2021 16:00:00\n\n...\n\n"

/- ------------------------------------------------------------------ -/
/- Helper lemmas on the string and file-system primitives.            -/
/- ------------------------------------------------------------------ -/

theorem listPre_append {n x : List Char} (h : listPre n x = true) (e : List Char) :
    listPre n (x ++ e) = true := by
  induction n generalizing x with
  | nil => simp [listPre]
  | cons a as ih =>
    cases x with
    | nil => simp [listPre] at h
    | cons b bs =>
      simp only [listPre, Bool.and_eq_true, beq_iff_eq] at h
      simp only [List.cons_append, listPre, Bool.and_eq_true, beq_iff_eq]
      exact ⟨h.1, ih h.2⟩

theorem listPre_self_append (n y : List Char) : listPre n (n ++ y) = true := by
  induction n with
  | nil => simp [listPre]
  | cons a as ih => simp [listPre, ih]

theorem listInfixB_append_right {n h : List Char} (hh : listInfixB n h = true)
    (e : List Char) : listInfixB n (h ++ e) = true := by
  simp only [listInfixB, List.any_eq_true, List.mem_range] at hh ⊢
  obtain ⟨i, hi, hpre⟩ := hh
  refine ⟨i, by simp [Nat.lt_succ_iff]; omega, ?_⟩
  have hdrop : (h ++ e).drop i = h.drop i ++ e := by
    have : i ≤ h.length := by omega
    simp [List.drop_append_of_le_length this]
  rw [hdrop]
  exact listPre_append hpre e

theorem listInfixB_middle (x n y : List Char) : listInfixB n (x ++ n ++ y) = true := by
  simp only [listInfixB, List.any_eq_true, List.mem_range]
  refine ⟨x.length, ?_, ?_⟩
  · simp [List.length_append]; omega
  · have : (x ++ n ++ y).drop x.length = n ++ y := by
      rw [List.append_assoc, List.drop_left]
    rw [this]
    exact listPre_self_append n y

theorem listInfixB_nil {n : List Char} (h : n ≠ []) : listInfixB n [] = false := by
  cases n with
  | nil => exact absurd rfl h
  | cons a as => simp [listInfixB, listPre]

theorem str_data_append (s t : String) : (s ++ t).data = s.data ++ t.data := rfl

theorem str_ext {s t : String} (h : s.data = t.data) : s = t :=
  String.ext h

theorem str_append_empty (s : String) : s ++ "" = s := by
  apply str_ext
  rw [str_data_append]
  simp

theorem str_data_ne_nil {s : String} (h : s ≠ "") : s.data ≠ [] := by
  intro hd
  exact h (str_ext (by simpa using hd))

theorem strContains_append {cur b : String} (h : strContains cur b = true)
    (w : String) : strContains (cur ++ w) b = true := by
  simp only [strContains, str_data_append]
  exact listInfixB_append_right h w.data

theorem strContains_middle (x b y : String) : strContains (x ++ b ++ y) b = true := by
  simp only [strContains, str_data_append]
  exact listInfixB_middle x.data b.data y.data

theorem strContains_empty_false {b : String} (h : b ≠ "") :
    strContains "" b = false := by
  simp only [strContains]
  exact listInfixB_nil (str_data_ne_nil h)

theorem fsGet_fsSet_self (fs : List (String × String)) (n v : String) :
    fsGet (fsSet fs n v) n = some v := by
  induction fs with
  | nil => simp [fsSet, fsGet]
  | cons p rest ih =>
    obtain ⟨k, w⟩ := p
    by_cases hk : k = n
    · simp [fsSet, fsGet, hk]
    · simp [fsSet, fsGet, hk, ih]

theorem fsGet_fsSet_ne (fs : List (String × String)) {n m : String} (v : String)
    (h : m ≠ n) : fsGet (fsSet fs n v) m = fsGet fs m := by
  have hnm : ¬ (n = m) := fun hh => h hh.symm
  induction fs with
  | nil => simp [fsSet, fsGet, hnm]
  | cons p rest ih =>
    obtain ⟨k, w⟩ := p
    by_cases hk : k = n
    · subst hk
      simp [fsSet, fsGet, hnm]
    · simp [fsSet, fsGet, hk, ih]

theorem fsSet_self {fs : List (String × String)} {n v : String}
    (h : fsGet fs n = some v) : fsSet fs n v = fs := by
  induction fs with
  | nil => simp [fsGet] at h
  | cons p rest ih =>
    obtain ⟨k, w⟩ := p
    by_cases hk : k = n
    · subst hk
      simp [fsGet] at h
      simp [fsSet, h]
    · simp [fsGet, hk] at h
      simp [fsSet, hk, ih h]

theorem fsGet_isSome_fsSet (fs : List (String × String)) (n m v : String)
    (h : (fsGet fs m).isSome) : (fsGet (fsSet fs n v) m).isSome := by
  by_cases hm : m = n
  · subst hm
    simp [fsGet_fsSet_self]
  · rwa [fsGet_fsSet_ne fs v hm]

/- ------------------------------------------------------------------ -/
/- Lemmas about the chunk loop of parse_clippings.                    -/
/- ------------------------------------------------------------------ -/

theorem processChunk_body_ne {dir c n m b}
    (h : processChunk dir c = .ok (some (n, m, b))) : b ≠ "" := by
  unfold processChunk at h
  dsimp only [] at h
  split at h
  · simp at h
  · split at h
    · simp at h
    · split at h
      · simp at h
      · split at h
        · split at h
          · simp at h
          · simp only [Except.ok.injEq, Option.some.injEq, Prod.mk.injEq] at h
            obtain ⟨-, -, hb⟩ := h
            subst hb
            assumption
        · simp at h

theorem applyRecord_existing {dir im out files n m b cur}
    (h : fsGet files n = some cur) :
    applyRecord dir im (out, files) (n, m, b) =
      .ok (out, fsSet files n (cur ++ writeText im m b cur)) := by
  unfold applyRecord
  have hs : (fsGet files n).isSome := by simp [h]
  simp [h, hs]

theorem applyRecord_noop {dir im out files n m b cur}
    (h : fsGet files n = some cur) (hc : strContains cur b = true) :
    applyRecord dir im (out, files) (n, m, b) = .ok (out, files) := by
  rw [applyRecord_existing h]
  rw [writeText, if_pos hc, str_append_empty, fsSet_self h]

theorem strContains_write (cur b x y z : String) :
    strContains (cur ++ (b ++ x ++ y ++ z)) b = true := by
  simp only [strContains, str_data_append]
  have heq : cur.data ++ (b.data ++ x.data ++ y.data ++ z.data)
      = (cur.data ++ b.data) ++ (x.data ++ y.data ++ z.data) := by
    simp [List.append_assoc]
  rw [heq]
  exact listInfixB_middle cur.data b.data (x.data ++ y.data ++ z.data)

theorem strContains_write0 (b x y z : String) :
    strContains (b ++ x ++ y ++ z) b = true := by
  simp only [strContains, str_data_append]
  have heq : b.data ++ x.data ++ y.data ++ z.data
      = ([] ++ b.data) ++ (x.data ++ y.data ++ z.data) := by
    simp [List.append_assoc]
  rw [heq]
  exact listInfixB_middle [] b.data (x.data ++ y.data ++ z.data)

/-- Complete inversion of a successful applyRecord call: either the append
branch ran (the file existed, the recorded set is unchanged) or the create
branch ran (the file did not exist, its path was recorded). -/
theorem applyRecord_inv {dir im out files nm ml bd out2 files2}
    (h : applyRecord dir im (out, files) (nm, ml, bd) = .ok (out2, files2)) :
    (∃ cur, fsGet files nm = some cur ∧ out2 = out ∧
        files2 = fsSet files nm (cur ++ writeText im ml bd cur)) ∨
      (fsGet files nm = none ∧ ¬ nm ∈ out ∧
        out2 = (if pyJoin dir nm ∈ out then out else out ++ [pyJoin dir nm]) ∧
        files2 = fsSet files nm (writeText im ml bd "")) := by
  unfold applyRecord at h
  dsimp only [] at h
  split at h
  · rename_i hcond
    cases hcur : fsGet files nm with
    | none => rw [hcur] at h; simp at h
    | some cur =>
      rw [hcur] at h
      simp only [Except.ok.injEq, Prod.mk.injEq] at h
      exact Or.inl ⟨cur, rfl, h.1.symm, h.2.symm⟩
  · rename_i hcond
    push_neg at hcond
    simp only [Except.ok.injEq, Prod.mk.injEq] at h
    refine Or.inr ⟨?_, hcond.1, h.1.symm, h.2.symm⟩
    have := hcond.2
    cases hcur : fsGet files nm with
    | none => rfl
    | some cur => rw [hcur] at this; simp at this

/-- The content written for a record contains its body. -/
theorem writeText_contains (im : Bool) (m b cur : String) :
    strContains (cur ++ writeText im m b cur) b = true := by
  unfold writeText
  by_cases hin : strContains cur b = true
  · rw [if_pos hin]
    exact strContains_append hin ""
  · rw [if_neg hin]
    exact strContains_write cur b "\n" (if im then m ++ "\n" else "") "\n...\n\n"

/-- A freshly created file contains the body that was written (the body is
never empty at this point, so the containment test against "" fails). -/
theorem writeText_fresh_contains (im : Bool) (m b : String) (hb : b ≠ "") :
    strContains (writeText im m b "") b = true := by
  unfold writeText
  rw [if_neg (by simp [strContains_empty_false hb])]
  exact strContains_write0 b "\n" (if im then m ++ "\n" else "") "\n...\n\n"

/-- One loop step preserves "the file for n exists and contains b". -/
theorem stepChunk_preserves {dir im out files out2 files2 c n b}
    (h : stepChunk dir im (out, files) c = .ok (out2, files2))
    (hex : ∃ t, fsGet files n = some t ∧ strContains t b = true) :
    ∃ t2, fsGet files2 n = some t2 ∧ strContains t2 b = true := by
  obtain ⟨t, hget, hc⟩ := hex
  unfold stepChunk at h
  cases hp : processChunk dir c with
  | error e => rw [hp] at h; simp at h
  | ok info =>
    rw [hp] at h
    cases info with
    | none =>
      simp only [Except.ok.injEq, Prod.mk.injEq] at h
      rw [← h.2]
      exact ⟨t, hget, hc⟩
    | some rec =>
      obtain ⟨nm, ml, bd⟩ := rec
      rcases applyRecord_inv h with ⟨cur, hcur, -, hf⟩ | ⟨hnone, -, -, hf⟩
      · subst hf
        by_cases hnm : n = nm
        · subst hnm
          rw [hget] at hcur
          injection hcur with hcur
          subst hcur
          exact ⟨t ++ writeText im ml bd t, fsGet_fsSet_self .., strContains_append hc _⟩
        · exact ⟨t, by rwa [fsGet_fsSet_ne _ _ hnm], hc⟩
      · subst hf
        by_cases hnm : n = nm
        · subst hnm
          rw [hget] at hnone
          simp at hnone
        · exact ⟨t, by rwa [fsGet_fsSet_ne _ _ hnm], hc⟩

/-- The whole loop preserves "the file for n exists and contains b". -/
theorem runChunks_preserves {dir im cs st stF e}
    (h : runChunks dir im cs st = (.ok e, stF))
    {n b} (hex : ∃ t, fsGet st.2 n = some t ∧ strContains t b = true) :
    ∃ t2, fsGet stF.2 n = some t2 ∧ strContains t2 b = true := by
  induction cs generalizing st with
  | nil =>
    unfold runChunks at h
    simp only [Prod.mk.injEq] at h
    rw [← h.2]
    exact hex
  | cons c rest ih =>
    unfold runChunks at h
    cases hs : stepChunk dir im st c with
    | error err => rw [hs] at h; simp at h
    | ok st2 =>
      rw [hs] at h
      obtain ⟨o1, f1⟩ := st
      obtain ⟨o2, f2⟩ := st2
      exact ih h (stepChunk_preserves hs hex)

/-- After the step that processes a record, the record's file exists and
contains the record's body. -/
theorem stepChunk_establishes {dir im st st2 c n m b}
    (h : stepChunk dir im st c = .ok st2)
    (hp : processChunk dir c = .ok (some (n, m, b))) :
    ∃ t2, fsGet st2.2 n = some t2 ∧ strContains t2 b = true := by
  have hbne : b ≠ "" := processChunk_body_ne hp
  unfold stepChunk at h
  rw [hp] at h
  obtain ⟨out, files⟩ := st
  obtain ⟨out2, files2⟩ := st2
  rcases applyRecord_inv h with ⟨cur, hcur, -, hf⟩ | ⟨hnone, -, -, hf⟩
  · subst hf
    exact ⟨cur ++ writeText im m b cur, fsGet_fsSet_self .., writeText_contains im m b cur⟩
  · subst hf
    exact ⟨writeText im m b "", fsGet_fsSet_self .., writeText_fresh_contains im m b hbne⟩

/-- Every chunk of a successfully completed loop parses without error. -/
theorem runChunks_processChunk_ok {dir im cs st stF e}
    (h : runChunks dir im cs st = (.ok e, stF)) {c} (hc : c ∈ cs) :
    ∃ r, processChunk dir c = .ok r := by
  induction cs generalizing st with
  | nil => simp at hc
  | cons c0 rest ih =>
    unfold runChunks at h
    cases hs : stepChunk dir im st c0 with
    | error err => rw [hs] at h; simp at h
    | ok st2 =>
      rw [hs] at h
      rcases List.mem_cons.mp hc with hceq | hcm
      · subst hceq
        unfold stepChunk at hs
        cases hp : processChunk dir c with
        | error e2 => rw [hp] at hs; simp at hs
        | ok r => exact ⟨r, rfl⟩
      · exact ih h hcm

/-- After a successful run, every record chunk of the source has its file
present with the record's body contained in it. -/
theorem runChunks_post {dir im cs st stF e}
    (h : runChunks dir im cs st = (.ok e, stF))
    {c n m b} (hc : c ∈ cs) (hp : processChunk dir c = .ok (some (n, m, b))) :
    ∃ t, fsGet stF.2 n = some t ∧ strContains t b = true := by
  induction cs generalizing st with
  | nil => simp at hc
  | cons c0 rest ih =>
    unfold runChunks at h
    cases hs : stepChunk dir im st c0 with
    | error err => rw [hs] at h; simp at h
    | ok st2 =>
      rw [hs] at h
      rcases List.mem_cons.mp hc with hceq | hcm
      · subst hceq
        exact runChunks_preserves h (stepChunk_establishes hs hp)
      · exact ih h hcm

/-- If every record chunk already has its body contained in its file, the
loop appends nothing and leaves the whole state untouched. -/
theorem runChunks_noop {dir im cs out files}
    (h1 : ∀ c ∈ cs, ∀ n m b, processChunk dir c = .ok (some (n, m, b)) →
      ∃ t, fsGet files n = some t ∧ strContains t b = true)
    (h2 : ∀ c ∈ cs, ∃ r, processChunk dir c = .ok r) :
    runChunks dir im cs (out, files) = (.ok (), (out, files)) := by
  induction cs with
  | nil => rfl
  | cons c rest ih =>
    obtain ⟨r, hr⟩ := h2 c (by simp)
    have hstep : stepChunk dir im (out, files) c = .ok (out, files) := by
      unfold stepChunk
      rw [hr]
      cases r with
      | none => rfl
      | some rec =>
        obtain ⟨nm, ml, bd⟩ := rec
        obtain ⟨t, hget, hc⟩ := h1 c (by simp) nm ml bd hr
        exact applyRecord_noop hget hc
    unfold runChunks
    rw [hstep]
    exact ih (fun c hc => h1 c (by simp [hc])) (fun c hc => h2 c (by simp [hc]))

/- ------------------------------------------------------------------ -/
/- Claim theorems.                                                    -/
/- ------------------------------------------------------------------ -/

/-- C1.  Idempotence of the pipeline: for every fixed source file content and
destination directory state, if a run of parse_clippings succeeds, then a
second run with the same source against the resulting directory succeeds and
leaves every book file byte-identical — the whole directory state after the
second run equals the state after the first run, so no additional bytes are
appended anywhere. -/
theorem parse_clippings_idempotent {content dir : String} {im : Bool}
    {fs0 fs1 : PyFS} {out1 : List String}
    (h : parse_clippings (some content) dir im fs0 = (.ok out1, fs1)) :
    ∃ out2, parse_clippings (some content) dir im fs1 = (.ok out2, fs1) := by
  simp only [parse_clippings] at h ⊢
  rcases hr : runChunks dir im (pySplit content "==========") ([], fs0.files) with ⟨r1, o1, f1⟩
  rw [hr] at h
  cases r1 with
  | error e => simp at h
  | ok u =>
    simp only [Prod.mk.injEq, Except.ok.injEq] at h
    obtain ⟨hout, hfs⟩ := h
    have hnoop : runChunks dir im (pySplit content "==========") ([], f1) =
        (.ok (), ([], f1)) :=
      runChunks_noop
        (fun c hc n m b hp => runChunks_post hr hc hp)
        (fun c hc => runChunks_processChunk_ok hr hc)
    refine ⟨[], ?_⟩
    rw [← hfs]
    rw [hnoop]

/-- Witness for C1: a concrete one-record source run against an empty
directory, then re-run against the resulting directory. -/
theorem parse_clippings_idempotent_witness :
    ∃ out2, parse_clippings (some "==========\nT\nm\n\nbody\n") "out" false
        ⟨true, [("T.txt", "body\n\n...\n\n")]⟩ =
      (.ok out2, ⟨true, [("T.txt", "body\n\n...\n\n")]⟩) :=
  @parse_clippings_idempotent "==========\nT\nm\n\nbody\n" "out" false
    ⟨false, []⟩ ⟨true, [("T.txt", "body\n\n...\n\n")]⟩ ["out/T.txt"] (by rfl)

theorem pyJoin_inj {d n m : String} (h : pyJoin d n = pyJoin d m) : n = m := by
  unfold pyJoin at h
  by_cases hd : d = ""
  · simpa [hd] using h
  · by_cases hl : d.data.getLast? = some '/'
    · simp only [if_neg hd, if_pos hl] at h
      have hdata := congrArg String.data h
      simp only [str_data_append] at hdata
      exact str_ext (List.append_cancel_left hdata)
    · simp only [if_neg hd, if_neg hl] at h
      have hdata := congrArg String.data h
      simp only [str_data_append] at hdata
      exact str_ext (List.append_cancel_left hdata)

/-- One loop step preserves the two output-set invariants: files present in
the base listing stay present, and every recorded path is the join of a name
that was absent from the base listing. -/
theorem stepChunk_out_inv {dir im out files out2 files2 c}
    (base : List (String × String))
    (h : stepChunk dir im (out, files) c = .ok (out2, files2))
    (hQ : ∀ n, (fsGet base n).isSome → (fsGet files n).isSome)
    (hP : ∀ p ∈ out, ∃ mm, p = pyJoin dir mm ∧ fsGet base mm = none) :
    (∀ n, (fsGet base n).isSome → (fsGet files2 n).isSome) ∧
      (∀ p ∈ out2, ∃ mm, p = pyJoin dir mm ∧ fsGet base mm = none) := by
  unfold stepChunk at h
  cases hp : processChunk dir c with
  | error e => rw [hp] at h; simp at h
  | ok info =>
    rw [hp] at h
    cases info with
    | none =>
      simp only [Except.ok.injEq, Prod.mk.injEq] at h
      obtain ⟨ho, hf⟩ := h
      rw [← ho, ← hf]
      exact ⟨hQ, hP⟩
    | some rec =>
      obtain ⟨nm, ml, bd⟩ := rec
      rcases applyRecord_inv h with ⟨cur, hcur, ho, hf⟩ | ⟨hnone, hmem, ho, hf⟩
      · subst hf
        subst ho
        exact ⟨fun n hn => fsGet_isSome_fsSet _ _ _ _ (hQ n hn), hP⟩
      · subst hf
        subst ho
        refine ⟨fun n hn => fsGet_isSome_fsSet _ _ _ _ (hQ n hn), ?_⟩
        intro p hpmem
        have hbase : fsGet base nm = none := by
          cases hb : fsGet base nm with
          | none => rfl
          | some v =>
            have := hQ nm (by simp [hb])
            rw [hnone] at this
            simp at this
        by_cases hin : pyJoin dir nm ∈ out
        · rw [if_pos hin] at hpmem
          exact hP p hpmem
        · rw [if_neg hin] at hpmem
          rcases List.mem_append.mp hpmem with hold | hnew
          · exact hP p hold
          · simp only [List.mem_singleton] at hnew
            exact ⟨nm, hnew, hbase⟩

/-- The loop-level version of the output-set invariants. -/
theorem runChunks_out_inv {dir im cs st stF e}
    (base : List (String × String))
    (h : runChunks dir im cs st = (.ok e, stF))
    (hQ : ∀ n, (fsGet base n).isSome → (fsGet st.2 n).isSome)
    (hP : ∀ p ∈ st.1, ∃ mm, p = pyJoin dir mm ∧ fsGet base mm = none) :
    ∀ p ∈ stF.1, ∃ mm, p = pyJoin dir mm ∧ fsGet base mm = none := by
  induction cs generalizing st with
  | nil =>
    unfold runChunks at h
    simp only [Prod.mk.injEq] at h
    rw [← h.2]
    exact hP
  | cons c rest ih =>
    unfold runChunks at h
    cases hs : stepChunk dir im st c with
    | error err => rw [hs] at h; simp at h
    | ok st2 =>
      rw [hs] at h
      obtain ⟨o1, f1⟩ := st
      obtain ⟨o2, f2⟩ := st2
      obtain ⟨hQ2, hP2⟩ := stepChunk_out_inv base hs hQ hP
      exact ih h hQ2 hP2

/-- C6, amended.  The set returned by parse_clippings records only the files
newly created during the run: for every file name already present in the
destination directory before the run, its path is NOT a member of the
returned set, even when the run appended records to that file. -/
theorem parse_clippings_returns_only_created {content dir : String} {im : Bool}
    {fs0 fs1 : PyFS} {out : List String}
    (h : parse_clippings (some content) dir im fs0 = (.ok out, fs1)) :
    ∀ n, (fsGet fs0.files n).isSome = true → pyJoin dir n ∉ out := by
  simp only [parse_clippings] at h
  rcases hr : runChunks dir im (pySplit content "==========") ([], fs0.files) with ⟨r1, o1, f1⟩
  rw [hr] at h
  cases r1 with
  | error e => simp at h
  | ok u =>
    simp only [Prod.mk.injEq, Except.ok.injEq] at h
    intro n hn hmem
    rw [← h.1] at hmem
    have hinv := runChunks_out_inv fs0.files hr
      (fun n hn => hn) (by intro p hp; simp at hp)
    obtain ⟨mm, heq, hnone⟩ := hinv (pyJoin dir n) hmem
    rw [pyJoin_inj heq] at hn
    rw [hnone] at hn
    simp at hn

/-- Witness for the amended C6: a run that appends to a pre-existing book
file; the returned set is empty, so in particular the appended file's path
is not in it. -/
theorem parse_clippings_returns_only_created_witness :
    pyJoin "out" "T.txt" ∉ ([] : List String) :=
  @parse_clippings_returns_only_created "==========\nT\nm\n\nnew\n" "out" false
    ⟨true, [("T.txt", "old\n")]⟩ ⟨true, [("T.txt", "old\nnew\n\n...\n\n")]⟩ []
    (by rfl) "T.txt" (by rfl)

/-- C6, counterexample.  A record is appended to a book file that existed
before the run ("old\n" grows by the new record), yet the returned set is
empty — the appended file's path is not a member of the returned set, where
the claim requires it to be. -/
theorem parse_clippings_c6_counterexample :
    parse_clippings (some "==========\nT\nm\n\nnew\n") "out" false
        ⟨true, [("T.txt", "old\n")]⟩ =
      (.ok [], ⟨true, [("T.txt", "old\nnew\n\n...\n\n")]⟩) ∧
    ("T.txt", "old\nnew\n\n...\n\n") ≠ ("T.txt", "old\n") := by
  exact ⟨by rfl, by simp⟩

/-- C7.  Exact-containment dedup.  First conjunct: for every record whose
body is already present as a substring anywhere in the book file's current
text, the append step leaves the recorded set and every file byte-identical
— nothing is appended for that record.  Second conjunct: with existing text
"Hello world\n", a record whose body "Hello world!" is a strict superstring
is not dropped by containment — its text is appended. -/
theorem applyRecord_containment_dedup :
    (∀ (dir : String) (im : Bool) (out : List String)
        (files : List (String × String)) (n m b cur : String),
      fsGet files n = some cur → strContains cur b = true →
      applyRecord dir im (out, files) (n, m, b) = .ok (out, files)) ∧
    applyRecord "out" false ([], [("Book.txt", "Hello world\n")])
        ("Book.txt", "meta", "Hello world!") =
      .ok ([], [("Book.txt", "Hello world\nHello world!\n\n...\n\n")]) := by
  constructor
  · intro dir im out files n m b cur hget hc
    exact applyRecord_noop hget hc
  · rfl

/-- Witness for C7: with existing text "Hello world\n", a new record with
body "Hello world" is dropped — the append step returns the state
unchanged. -/
theorem applyRecord_containment_dedup_witness :
    applyRecord "out" false ([], [("Book.txt", "Hello world\n")])
        ("Book.txt", "meta", "Hello world") =
      .ok ([], [("Book.txt", "Hello world\n")]) :=
  applyRecord_containment_dedup.1 "out" false [] [("Book.txt", "Hello world\n")]
    "Book.txt" "meta" "Hello world" "Hello world\n" (by rfl) (by rfl)

/-- C10.  Atomicity of the source-not-found failure: when the source path
does not reference an existing file, parse_clippings raises IOError before
any filesystem mutation — the destination directory is not created and the
directory state is returned exactly as it was. -/
theorem parse_clippings_source_missing (dir : String) (im : Bool) (fs : PyFS) :
    parse_clippings none dir im fs = (.error .ioError, fs) := rfl

theorem calcSim_ok {a b : String} (ha : a ≠ "") :
    calculate_similarity (.str a) (.str b) = .ok (simSpec a b) := by
  simp only [calculate_similarity, simSpec]
  rw [if_neg (by simp)]
  rw [if_neg]
  intro hmax
  have := str_data_ne_nil ha
  have h0 : a.data.length = 0 := by omega
  exact this (List.length_eq_zero.mp h0)

/-- A latent corner of calculate_similarity: on two empty strings the
division is by max(0,0), a ZeroDivisionError. -/
theorem calculate_similarity_both_empty :
    calculate_similarity (.str "") (.str "") = .error .zeroDivisionError := rfl

/-- The correlaton column aborts with TypeError on every non-empty frame
whose highlight bodies are actual non-empty strings: the last row compares
against the shifted-in nan. -/
theorem simCol_err {rows : List Row} (hne : rows ≠ [])
    (h : ∀ r ∈ rows, r.highlight ≠ "") : simCol rows = .error .typeError := by
  induction rows with
  | nil => exact absurd rfl hne
  | cons r rest ih =>
    cases rest with
    | nil => rfl
    | cons nx rest2 =>
      have hr : r.highlight ≠ "" := h r (by simp)
      have htail := ih (by simp) (fun x hx => h x (by simp [hx]))
      unfold simCol
      rw [calcSim_ok hr]
      simp only [htail]
      rfl

/-- C8.  The fuzzy dedup pass cannot perform its documented boundary rule:
on every non-empty dataframe (with the non-empty highlight bodies the
pipeline feeds it) filter_repeated_highlights raises TypeError.  The
shifted next_highlight column holds the float nan in its last row, nan is
not None so the guard in calculate_similarity does not fire, and
Levenshtein.distance on the float raises.  Hence no record is ever dropped
or kept by the similarity > 0.30 AND delta < 1 minute rule — in particular
the claim's two similar records 90 seconds apart do not both survive,
because the call never returns at all. -/
theorem filter_repeated_highlights_crashes :
    ∀ rows : List Row, rows ≠ [] → (∀ r ∈ rows, r.highlight ≠ "") →
      filter_repeated_highlights rows = .error .typeError := by
  intro rows hne h
  unfold filter_repeated_highlights
  rw [simCol_err hne h]
  rfl

/-- Witness for C8: the claim's own 90-second scenario — two similar
records that the claim says both survive — instead crashes the pass. -/
theorem filter_repeated_highlights_crashes_witness :
    filter_repeated_highlights
        [⟨"The quick brown fox", "m1", ⟨2021, 3, 5, 14, 32, 10⟩⟩,
         ⟨"The quick brown fox.", "m2", ⟨2021, 3, 5, 14, 33, 40⟩⟩] =
      .error .typeError :=
  filter_repeated_highlights_crashes _ (by decide) (by decide)

/-- C3, counterexample.  On the claim's exact metadata line the remainder
after "Added on " contains no ", ", so the two-way tuple unpack of the
split raises ValueError — extraction does not return 2021-03-05T14:32:10. -/
theorem extract_date_and_time_no_comma :
    extract_date_and_time "Your Highlight on page 12 | Added on 5 March 2021 14:32:10" =
      .error .valueError := rfl

/-- C3, amended.  Timestamp extraction splits on "Added on ", takes the
remainder, splits that on ", " requiring exactly two parts (a weekday
before the date, as real export lines carry), and parses the second part
with the day month-name year time format: with the weekday present the line
parses to exactly 2021-03-05T14:32:10, while the claim's line, which has no
", " after "Added on ", fails the two-way unpack with ValueError. -/
theorem extract_date_and_time_weekday_form :
    extract_date_and_time
        "Your Highlight on page 12 | Added on Friday, 5 March 2021 14:32:10" =
      .ok ⟨2021, 3, 5, 14, 32, 10⟩ ∧
    extract_date_and_time "Your Highlight on page 12 | Added on 5 March 2021 14:32:10" =
      .error .valueError := ⟨rfl, rfl⟩

/-- C4, counterexample.  A metadata-matching line whose timestamp fails to
parse makes create_df_from_highlights_list raise an uncaught ValueError:
the whole run aborts and the later line is never processed — there is no
per-record MetadataParseError recovery. -/
theorem create_df_crashes_on_bad_timestamp :
    create_df_from_highlights_list
        ["Your Highlight on page 1 | Added on garbage", "Some later highlight text"] =
      .error .valueError := rfl

/-- C4, amended.  There is no per-record MetadataParseError recovery.  A
recognizer-matching line whose timestamp fails to parse raises an uncaught
ValueError at the extraction step, aborting the run with later lines never
processed (second conjunct).  A line missing "Added on" entirely is
classified as highlight body text by the recognizer without any error at
the parsing stage (first conjunct) — but the run then still crashes later,
in the similarity pass, with a TypeError on any non-empty frame (third
conjunct, the slip documented at C8), so in no case is a record dropped or
kept without a timestamp while processing continues. -/
theorem create_df_error_behavior :
    classifyLines
        ["Not a meta line at all",
         "Your Highlight on page 1 | Added on Friday, 5 March 2021 14:32:10"] =
      .ok (["Not a meta line at all"],
           ["Your Highlight on page 1 | Added on Friday, 5 March 2021 14:32:10"],
           [⟨2021, 3, 5, 14, 32, 10⟩]) ∧
    create_df_from_highlights_list
        ["Your Highlight on page 1 | Added on garbage", "Some later highlight text"] =
      .error .valueError ∧
    create_df_from_highlights_list
        ["Not a meta line at all",
         "Your Highlight on page 1 | Added on Friday, 5 March 2021 14:32:10"] =
      .error .typeError := ⟨rfl, rfl, rfl⟩


/-- C5.  A chunk that yields exactly 3 lines after dropping its first line
crashes the whole run with IndexError (the guard checks length < 3 but then
evaluates lines[3]), instead of being silently filtered; a chunk with only
2 remaining lines is silently filtered as the claim states. -/
theorem parse_clippings_three_line_chunk_crash :
    parse_clippings (some "0\nT\nm\n") "out" false ⟨false, []⟩ =
      (.error .indexError, ⟨true, []⟩) ∧
    parse_clippings (some "0\nT\n") "out" false ⟨false, []⟩ =
      (.ok [], ⟨true, []⟩) := ⟨rfl, rfl⟩

/-- C9, counterexample.  In a title with two parenthesized groups the SECOND
group is also rewritten with the "- " prefix (re.sub replaces every
non-overlapping match), contradicting the claim that later groups are
merely stripped of their parentheses by the allowlist step. -/
theorem remove_chars_second_group_rewritten :
    remove_chars "Title (one) middle (two)" "" = "Title - one middle - two" ∧
    "Title - one middle - two" ≠ "Title - one middle two" := ⟨rfl, by decide⟩

/-- C9, amended.  The sanitizer rewrites EVERY parenthesized group "(...)"
of the raw title to "- inner text", not only the first: both groups of
"Title (one) middle (two)" receive the "- " rewrite, and the single group
of the colon example is rewritten the same way. -/
theorem remove_chars_rewrites_every_group :
    remove_chars "Title (one) middle (two)" "" = "Title - one middle - two" ∧
    remove_chars "Sapiens: A Brief History (Illustrated)" "" =
      "Sapiens - A Brief History - Illustrated" := ⟨rfl, rfl⟩

/-- C2, counterexample.  The synthetic 3-records-for-Book-A, 1-for-Book-B
source produces two files, but Book A's persisted file holds THREE body
lines, not two: parse_clippings never applies the fuzzy near-duplicate
collapse, so the two near-duplicates five seconds apart are both written. -/
theorem parse_clippings_c2_three_bodies :
    parse_clippings (some c2src) "out" false ⟨false, []⟩ =
      (.ok ["out/Book A.txt", "out/Book B.txt"],
       ⟨true,
        [("Book A.txt",
          "The quick brown fox\n\n...\n\nThe quick brown fox.\n\n...\n\nCompletely different text here\n\n...\n\n"),
         ("Book B.txt", "Some B text\n\n...\n\n")]⟩) ∧
    ((pySplit "The quick brown fox\n\n...\n\nThe quick brown fox.\n\n...\n\nCompletely different text here\n\n...\n\n" "\n").filter
        fun s => ¬ (s = "..." ∨ s = "")).length = 3 := ⟨rfl, by decide⟩

/-- C2, amended.  Exactly two output files are produced, but parse_clippings
applies no fuzzy collapse before persistence: Book A's persisted file holds
3 body lines and Book B's 1.  The fuzzy collapse exists only in the
rendering-stage pipeline, and as written that pipeline cannot deliver it
either: create_df_from_highlights_list on Book A's persisted lines crashes
with a TypeError in the similarity pass (the shifted column's nan reaches
Levenshtein.distance), so the two near-duplicates five seconds apart are
never collapsed anywhere. -/
theorem parse_clippings_c2_dedup_at_rendering :
    parse_clippings (some c2src) "out" true ⟨false, []⟩ =
      (.ok ["out/Book A.txt", "out/Book B.txt"],
       ⟨true, [("Book A.txt", c2bookA), ("Book B.txt", c2bookB)]⟩) ∧
    ((pySplit c2bookA "\n").filter
        fun s => ¬ (s = "..." ∨ s = "" ∨ isMetaLine s = true)).length = 3 ∧
    ((pySplit c2bookB "\n").filter
        fun s => ¬ (s = "..." ∨ s = "" ∨ isMetaLine s = true)).length = 1 ∧
    create_df_from_highlights_list (pySplit c2bookA "\n") = .error .typeError :=
  ⟨rfl, by decide, by decide, rfl⟩
